import Mathlib

/-!
Verification development for the `somber` sources: the batch Recursive
self-organizing map (`somber/batch/recursive.py`) and the Neural Gas
(`somber/ng.py`).  Arrays are embedded either as Lean lists (for the
sequential batching and ranking code) or as functions out of `Fin`
(for the fixed-shape weight/activation algebra); machine floats are
embedded as real numbers, with `Real.exp` standing for `np.exp`.
-/

/- ===================== Batcher (`Recursive._create_batches`) ===================== -/

/-- Ceiling division on naturals, modelling `int(np.ceil(n / batch_size))`
from `recursive.py` line 111 (exact for the integer sizes involved). -/
def ceil_div (a b : ℕ) : ℕ := (a + b - 1) / b

/-- Models `np.resize(X, (rows, cols, dim))` at row granularity: `np.resize`
fills the new buffer with cyclic repetition of the flattened input.  Because
the trailing dimension `dim` of a 2-D input is preserved, cyclic repetition of
the flat scalar buffer is cyclic repetition of whole rows, so the resized
array holds row `X[(r * cols + c) % len(X)]` at position `(r, c)`. -/
def np_resize {V : Type} [Inhabited V] (X : List V) (rows cols : ℕ) : List (List V) :=
  (List.range rows).map fun r => (List.range cols).map fun c =>
    X.getD ((r * cols + c) % X.length) default

/-- Models `.transpose((1, 0, 2))` on an array of shape `(rows, cols, dim)`
holding rows of the input: output position `(c, r)` holds input position
`(r, c)`. -/
def transpose_batches {V : Type} [Inhabited V] (A : List (List V)) (rows cols : ℕ) :
    List (List V) :=
  (List.range cols).map fun c => (List.range rows).map fun r => (A.getD r []).getD c default

/-- Method `Recursive._create_batches` (recursive.py lines 95-113): resize the
2-D input to `(batch_size, ceil(len(X) / batch_size), dim)` and transpose to
`(num_batches, batch_size, dim)`. -/
def _create_batches {V : Type} [Inhabited V] (X : List V) (batch_size : ℕ) : List (List V) :=
  transpose_batches (np_resize X batch_size (ceil_div X.length batch_size))
    batch_size (ceil_div X.length batch_size)

/-- Batch-major, temporal-order-preserving flattening of a batched array:
for each within-batch row index `r`, traverse that row across all batches in
order, concatenating the resulting subsequences. -/
def flatten_batch_major {V : Type} [Inhabited V] (batches : List (List V)) (batch_size : ℕ) :
    List V :=
  ((List.range batch_size).map fun r => batches.map fun batch => batch.getD r default).flatten

/- ===================== Neural Gas (`Ng._get_bmu`) ===================== -/

/-- The comparison-function tag tested by `Ng._get_bmu` (ng.py line 65). -/
def argmaxName : String := "argmax"

/-- The comparison-function tag the `Ng` constructor configures
(`'argmin'`, ng.py line 56): a minimization-style configuration. -/
def ngArgfunc : String := "argmin"

/-- Ascending argsort of one row: the list of indices `0, ..., len-1` sorted
so that the values they select are non-decreasing.  Models `xp.argsort(row)`
(any correct ascending argsort; orderings can differ from numpy's only on
tied values). -/
def argsort_row (a : List ℚ) : List ℕ :=
  List.insertionSort (fun i j => a.getD i 0 ≤ a.getD j 0) (List.range a.length)

/-- Method `Ng._get_bmu` (ng.py lines 61-67): if the configured comparison function
is `'argmax'`, negate the activations; then argsort along axis 1 (each row
independently). -/
def _get_bmu (argfunc : String) (activations : List (List ℚ)) : List (List ℕ) :=
  let acts := if argfunc = argmaxName then
    activations.map (fun row => row.map (fun v => -v)) else activations
  acts.map argsort_row

/- ===================== Recursive SOM state and activation ===================== -/

/-- The mutable state of a `Recursive` instance (recursive.py lines 13-18):
`weights` of shape (map_dim, dim), `context_weights` of shape
(map_dim, map_dim), and the fixed mixing coefficients `alpha` and `beta`. -/
structure RecState (n d : ℕ) where
  weights : Fin n → Fin d → ℝ
  context_weights : Fin n → Fin n → ℝ
  alpha : ℝ
  beta : ℝ

/-- Modelled from the spec: `_distance_difference` lives in
`somber/batch/som.py`, which is absent from the sources; per spec §3
(DifferenceTensors) and §4.3 it is the raw component-wise
(input − weight) difference of shape (batch, num_neurons, dim). -/
def _distance_difference {b m k : ℕ} (a : Fin b → Fin k → ℝ) (w : Fin m → Fin k → ℝ) :
    Fin b → Fin m → Fin k → ℝ :=
  fun i j c => a i c - w j c

/-- Modelled from the spec: `_euclidean` lives in `somber/batch/som.py`,
which is absent from the sources; per spec §4.3 it is the squared Euclidean
distance — the sum of squared component-wise differences, with the square
root intentionally omitted. -/
def _euclidean {b m k : ℕ} (a : Fin b → Fin k → ℝ) (w : Fin m → Fin k → ℝ) :
    Fin b → Fin m → ℝ :=
  fun i j => ∑ c, (a i c - w j c) ^ 2

/-- Method `Recursive._get_bmus` (recursive.py lines 115-136): component-wise
differences and squared-Euclidean distances of the input against the weights
and of the previous activation against the context weights, combined into
`activation = exp(-(alpha * distance_x + beta * distance_y))`.  Returns
`(activation, difference_x, difference_y)`. -/
noncomputable def _get_bmus {n d b : ℕ} (s : RecState n d) (x : Fin b → Fin d → ℝ)
    (prev_activation : Fin b → Fin n → ℝ) :
    (Fin b → Fin n → ℝ) × (Fin b → Fin n → Fin d → ℝ) × (Fin b → Fin n → Fin n → ℝ) :=
  let difference_x := _distance_difference x s.weights
  let difference_y := _distance_difference prev_activation s.context_weights
  let distance_x := _euclidean x s.weights
  let distance_y := _euclidean prev_activation s.context_weights
  (fun i j => Real.exp (-(s.alpha * distance_x i j + s.beta * distance_y i j)),
   difference_x, difference_y)

/-- Method `Recursive._get_bmus` with the instance state threaded explicitly: the
method body is translated line by line, with the state that the method can
see returned alongside the results.  No statement of the body assigns to any
instance field, so the returned state is the state passed in. -/
noncomputable def _get_bmus_state {n d b : ℕ} (s : RecState n d) (x : Fin b → Fin d → ℝ)
    (prev_activation : Fin b → Fin n → ℝ) :
    RecState n d ×
      ((Fin b → Fin n → ℝ) × (Fin b → Fin n → Fin d → ℝ) × (Fin b → Fin n → Fin n → ℝ)) :=
  let difference_x := _distance_difference x s.weights
  let difference_y := _distance_difference prev_activation s.context_weights
  let distance_x := _euclidean x s.weights
  let distance_y := _euclidean prev_activation s.context_weights
  (s,
   (fun i j => Real.exp (-(s.alpha * distance_x i j + s.beta * distance_y i j)),
    difference_x, difference_y))

/- ===================== Update engine (`Recursive._example`) ===================== -/

/-- Modelled from the spec: `_apply_influences` lives in
`somber/batch/som.py`, which is absent from the sources; per spec §4.4 the
update engine "selects BMUs" from the activations by the configured
comparison policy (`min_max=np.argmax` for `Recursive`, recursive.py line 15)
and uses the selected BMU's row of the influence matrix as the per-input
influence.  Returns `(influence, bmu)`. -/
noncomputable def _apply_influences {n b : ℕ} [NeZero n] (activation : Fin b → Fin n → ℝ)
    (influences : Fin n → Fin n → ℝ) : (Fin b → Fin n → ℝ) × (Fin b → Fin n) :=
  haveI : Nonempty (Fin n) := ⟨⟨0, Nat.pos_of_ne_zero (NeZero.ne n)⟩⟩
  let bmu : Fin b → Fin n := fun i => Classical.choose (Finite.exists_max (activation i))
  (fun i => influences (bmu i), bmu)

/-- Modelled from the spec: `_calculate_update` lives in
`somber/batch/som.py`, which is absent from the sources; per spec §4.4 the
pre-reduction weight delta is `influence[..., None] * difference`. -/
def _calculate_update {b n k : ℕ} (difference : Fin b → Fin n → Fin k → ℝ)
    (influence : Fin b → Fin n → ℝ) : Fin b → Fin n → Fin k → ℝ :=
  fun i j c => influence i j * difference i j c

/-- Models numpy's `.mean(axis=0)` on a (batch, n, k)-shaped tensor: the sum over
the batch axis divided by the batch size. -/
noncomputable def mean_axis0 {b n k : ℕ} (t : Fin b → Fin n → Fin k → ℝ) : Fin n → Fin k → ℝ :=
  fun j c => (∑ i, t i j c) / (b : ℝ)

/-- Method `Recursive._example` (recursive.py lines 72-93): compute the activation
and difference tensors, select influences by BMU, then add the batch-mean of
each influence-weighted difference tensor to the corresponding weight matrix.
Returns the updated state together with the activation. -/
noncomputable def _example {n d b : ℕ} [NeZero n] (s : RecState n d) (x : Fin b → Fin d → ℝ)
    (influences : Fin n → Fin n → ℝ) (prev_activation : Fin b → Fin n → ℝ) :
    RecState n d × (Fin b → Fin n → ℝ) :=
  let abd := _get_bmus s x prev_activation
  let activation := abd.1
  let diff_x := abd.2.1
  let diff_context := abd.2.2
  let influence := (_apply_influences activation influences).1
  ({ s with
      weights := fun j c =>
        s.weights j c + mean_axis0 (_calculate_update diff_x influence) j c,
      context_weights := fun j m =>
        s.context_weights j m + mean_axis0 (_calculate_update diff_context influence) j m },
   activation)

/- ===================== Training loop (`Recursive._train_loop`) ===================== -/

/-- The fixed configuration `Recursive._train_loop` reads: the decay
schedules `nbfunc`/`lrfunc` and the radius-based influence kernel
`calc_influence` (the constructor takes `lrfunc`/`nbfunc` as parameters with
`expo` as default, recursive.py line 13; `_calculate_influence` lives in
`somber/batch/som.py`, absent from the sources, so it is kept as an opaque
parameter — the loop only ever composes it), the starting values `sigma` and
`learning_rate0`, and the two checkpoint index sets. -/
structure LoopParams (n : ℕ) where
  nbfunc : ℝ → ℕ → ℕ → ℝ
  lrfunc : ℝ → ℕ → ℕ → ℝ
  calc_influence : ℝ → Fin n → Fin n → ℝ
  sigma : ℝ
  learning_rate0 : ℝ
  nb_update_counter : List ℕ
  lr_update_counter : List ℕ

/-- The per-example mutable state of `Recursive._train_loop`
(recursive.py lines 29-70): the instance state, the recurrence activation,
the schedule counters `nb_step`/`lr_step`/`idx`, the cached `map_radius`,
`learning_rate` and `influences`, and the `update` refresh flag. -/
structure LoopState (n d b : ℕ) where
  st : RecState n d
  prev_activation : Fin b → Fin n → ℝ
  nb_step : ℕ
  lr_step : ℕ
  idx : ℕ
  map_radius : ℝ
  learning_rate : ℝ
  influences : Fin n → Fin n → ℝ
  update : Bool

/-- One iteration of the inner loop of `Recursive._train_loop`
(recursive.py lines 44-70) on the example `x` with context-mask value `ct`:
run `_example`, multiply the resulting activation by `ct`
(`prev_activation *= ct`), then perform the schedule bookkeeping — if `idx`
is in a checkpoint set, step the corresponding counter and recompute the
radius / learning rate and set the refresh flag; if the flag is set,
recompute `influences = _calculate_influence(map_radius) * learning_rate`
and clear it; finally increment `idx`. -/
noncomputable def _train_step {n d b : ℕ} [NeZero n] (P : LoopParams n) (ls : LoopState n d b)
    (x : Fin b → Fin d → ℝ) (ct : ℝ) : LoopState n d b :=
  let sa := _example ls.st x ls.influences ls.prev_activation
  let prev' := fun i j => ct * sa.2 i j
  let nb_step := if ls.idx ∈ P.nb_update_counter then ls.nb_step + 1 else ls.nb_step
  let map_radius := if ls.idx ∈ P.nb_update_counter then
    P.nbfunc P.sigma nb_step P.nb_update_counter.length else ls.map_radius
  let upd1 := if ls.idx ∈ P.nb_update_counter then true else ls.update
  let lr_step := if ls.idx ∈ P.lr_update_counter then ls.lr_step + 1 else ls.lr_step
  let learning_rate := if ls.idx ∈ P.lr_update_counter then
    P.lrfunc P.learning_rate0 lr_step P.lr_update_counter.length else ls.learning_rate
  let upd2 := if ls.idx ∈ P.lr_update_counter then true else upd1
  let influences := if upd2 then
    (fun j m => P.calc_influence map_radius j m * learning_rate) else ls.influences
  let update := if upd2 then false else upd2
  { st := sa.1
    prev_activation := prev'
    nb_step := nb_step
    lr_step := lr_step
    idx := ls.idx + 1
    map_radius := map_radius
    learning_rate := learning_rate
    influences := influences
    update := update }

/-- The initialization of `Recursive._train_loop` (recursive.py lines 29-42):
counters at 0, radius and learning rate evaluated at step 0 (the code passes
`len(nb_update_counter)` as the total-steps argument of both calls, lines
33-34), the cached `influences` set to `_calculate_influence(map_radius)`
(line 35 — with no learning-rate factor), the refresh flag cleared, and the
recurrence activation zeroed as at the start of an epoch (line 42). -/
noncomputable def _train_init {n d : ℕ} (P : LoopParams n) (s : RecState n d) (b : ℕ) :
    LoopState n d b :=
  { st := s
    prev_activation := fun _ _ => 0
    nb_step := 0
    lr_step := 0
    idx := 0
    map_radius := P.nbfunc P.sigma 0 P.nb_update_counter.length
    learning_rate := P.lrfunc P.learning_rate0 0 P.nb_update_counter.length
    influences := P.calc_influence (P.nbfunc P.sigma 0 P.nb_update_counter.length)
    update := false }

/-- The inner loop of `Recursive._train_loop` run over a list of
(example, context-mask value) pairs, in order. -/
noncomputable def _train_run {n d b : ℕ} [NeZero n] (P : LoopParams n) (ls : LoopState n d b)
    (pairs : List ((Fin b → Fin d → ℝ) × ℝ)) : LoopState n d b :=
  pairs.foldl (fun acc p => _train_step P acc p.1 p.2) ls

/- ===================== Prediction (`Recursive._predict_base`) ===================== -/

/-- The `for x in X[1:]` loop of `Recursive._predict_base` (recursive.py
lines 155-157): each step feeds the previous activation into `_get_bmus` and
appends the resulting (batch-size 1) activation row to the output. -/
noncomputable def _predict_loop {n d : ℕ} (s : RecState n d) (prev : Fin 1 → Fin n → ℝ) :
    List (Fin d → ℝ) → List (Fin n → ℝ)
  | [] => []
  | x :: rest =>
    let act := (_get_bmus s (fun _ => x) prev).1
    act 0 :: _predict_loop s act rest

/-- Method `Recursive._predict_base` (recursive.py lines 138-159).  The call
`_create_batches(X, 1)` reshapes the (N, dim) input into (N, 1, dim) — with
batch size 1 the `np.resize` is content-preserving — so the loop walks the
input rows as singleton batches.  The first output row is
`np.sum(np.square(_distance_difference(X[0], weights)), axis=2)`, the raw
squared distance of the first input to the weights; every later row comes
from `_get_bmus`, seeded with the previous row as recurrence state. -/
noncomputable def _predict_base {n d : ℕ} (s : RecState n d) (X : List (Fin d → ℝ)) :
    List (Fin n → ℝ) :=
  match X with
  | [] => []
  | x0 :: rest =>
    let first : Fin 1 → Fin n → ℝ := fun _ j => ∑ c, (x0 c - s.weights j c) ^ 2
    first 0 :: _predict_loop s first rest

/- ===================== Concrete instances used by witnesses ===================== -/

/-- Concrete `Recursive` state used by the C2 witness. -/
noncomputable def sW2 : RecState 1 1 := ⟨fun _ _ => 0, fun _ _ => 0, 1, 1⟩

/-- Concrete input batch used by the C2 witness. -/
noncomputable def xW2 : Fin 1 → Fin 1 → ℝ := fun _ _ => 1

/-- Concrete influence matrix used by the C2 witness. -/
noncomputable def iW2 : Fin 1 → Fin 1 → ℝ := fun _ _ => 1

/-- Concrete previous activation used by the C2 witness. -/
noncomputable def pW2 : Fin 1 → Fin 1 → ℝ := fun _ _ => 0

/-- Concrete loop parameters used for claim C5: one neighborhood checkpoint
at global index 0, no learning-rate checkpoints, and a radius schedule that
changes with its step argument so that a recompute is observable. -/
noncomputable def pC5 : LoopParams 1 :=
  ⟨fun v s _ => v + s, fun v _ _ => v, fun r _ _ => r, 1, 1, [0], []⟩

/-- Concrete loop state (at global index 0, cached radius 5) for claim C5. -/
noncomputable def lsC5 : LoopState 1 1 1 :=
  ⟨⟨fun _ _ => 0, fun _ _ => 0, 1, 1⟩, fun _ _ => 0, 0, 0, 0, 5, 1, fun _ _ => 0, false⟩

/-- Concrete example input for claim C5. -/
noncomputable def xC5 : Fin 1 → Fin 1 → ℝ := fun _ _ => 0

/-- Concrete loop parameters for the C6 evaluation: constant schedules with
starting radius 1 and starting learning rate 1/2, identity influence
kernel. -/
noncomputable def pC6 : LoopParams 1 :=
  ⟨fun v _ _ => v, fun v _ _ => v, fun r _ _ => r, 1, 1 / 2, [0], [0]⟩

/-- Concrete `Recursive` state for the C6 evaluation. -/
noncomputable def sC6 : RecState 1 1 := ⟨fun _ _ => 0, fun _ _ => 0, 1, 1⟩

/-- Concrete loop parameters used by the C3 witness. -/
noncomputable def pC3 : LoopParams 1 :=
  ⟨fun v _ _ => v, fun v _ _ => v, fun r _ _ => r, 1, 1, [], []⟩

/-- Concrete loop state used by the C3 witness. -/
noncomputable def lsC3 : LoopState 1 1 1 :=
  ⟨⟨fun _ _ => 0, fun _ _ => 0, 1, 1⟩, fun _ _ => 0, 0, 0, 0, 1, 1, fun _ _ => 0, false⟩

/-- Concrete (example, context-mask) list, with mask value 0, used by the C3
witness. -/
noncomputable def pairsC3 : List ((Fin 1 → Fin 1 → ℝ) × ℝ) := [(fun _ _ => 0, 0)]

/-- Concrete `Recursive` state used by the C10 witness. -/
noncomputable def sW10 : RecState 1 1 := ⟨fun _ _ => 0, fun _ _ => 0, 1, 1⟩

/-- Concrete two-row input used by the C10 witness. -/
noncomputable def xsW10 : List (Fin 1 → ℝ) := [fun _ => 0, fun _ => 1]

/- ===================== Theorems ===================== -/

/-- C1: for every input batch `x` and previous activation state,
`Recursive._get_bmus` returns
`activation = exp(-(alpha * distance_x + beta * distance_y))`, where
`distance_x` is the squared Euclidean distance (sum of squared
component-wise differences, no square root) between `x` and the weight
matrix and `distance_y` is the squared Euclidean distance between the
previous activation and the context-weight matrix. -/
theorem claim_C1_get_bmus_activation {n d b : ℕ} (s : RecState n d)
    (x : Fin b → Fin d → ℝ) (prev_activation : Fin b → Fin n → ℝ) :
    (_get_bmus s x prev_activation).1 = fun i j =>
      Real.exp (-(s.alpha * (∑ c, (x i c - s.weights j c) ^ 2)
        + s.beta * (∑ m, (prev_activation i m - s.context_weights j m) ^ 2))) := rfl

/-- C9: `Recursive._get_bmus` leaves the instance state (weight matrix and
context-weight matrix) unchanged and is a pure mapping from the current
weights and inputs to the activation and difference tensors: the
state-threaded translation returns the entry state unchanged, paired with
exactly the value of the pure function. -/
theorem claim_C9_get_bmus_pure {n d b : ℕ} (s : RecState n d)
    (x : Fin b → Fin d → ℝ) (prev_activation : Fin b → Fin n → ℝ) :
    _get_bmus_state s x prev_activation = (s, _get_bmus s x prev_activation) := rfl

/-- C2: `Recursive._example` adds in place to the weight matrix the mean
over the batch axis of the influence-weighted input-difference tensor, adds
the batch-mean of the influence-weighted context-difference tensor to the
context-weight matrix, and applies no other update (the remaining state
fields are unchanged and the returned value is the unmasked activation). -/
theorem claim_C2_example_batch_mean_update {n d b : ℕ} [NeZero n] (s : RecState n d)
    (x : Fin b → Fin d → ℝ) (influences : Fin n → Fin n → ℝ)
    (prev_activation : Fin b → Fin n → ℝ) :
    ((_example s x influences prev_activation).1.weights = fun j c =>
        s.weights j c +
          (∑ i, (_apply_influences (_get_bmus s x prev_activation).1 influences).1 i j *
            (x i c - s.weights j c)) / (b : ℝ)) ∧
    ((_example s x influences prev_activation).1.context_weights = fun j m =>
        s.context_weights j m +
          (∑ i, (_apply_influences (_get_bmus s x prev_activation).1 influences).1 i j *
            (prev_activation i m - s.context_weights j m)) / (b : ℝ)) ∧
    (_example s x influences prev_activation).1.alpha = s.alpha ∧
    (_example s x influences prev_activation).1.beta = s.beta ∧
    (_example s x influences prev_activation).2 = (_get_bmus s x prev_activation).1 :=
  ⟨rfl, rfl, rfl, rfl, rfl⟩

/-- Witness for C2 at a concrete one-neuron, one-dimensional, batch-one
instance. -/
theorem claim_C2_example_batch_mean_update_witness :
    (_example sW2 xW2 iW2 pW2).1.weights = fun j c =>
      sW2.weights j c +
        (∑ i, (_apply_influences (_get_bmus sW2 xW2 pW2).1 iW2).1 i j *
          (xW2 i c - sW2.weights j c)) / ((1 : ℕ) : ℝ) :=
  (claim_C2_example_batch_mean_update sW2 xW2 iW2 pW2).1

/-- C6 (code bug): the cached influence used before any example is
processed.  In general the code initializes it to the bare influence kernel
of the step-0 radius, with no learning-rate factor (recursive.py line 35),
even though the step-0 learning rate is computed on the line before and
every later checkpoint refresh multiplies by the learning rate (line 67).
At the concrete instance `pC6` (identity kernel, radius 1, learning rate
1/2) the cached initial influence is 1, not `kernel(radius) * learning_rate
= 1/2`, contradicting the claim. -/
theorem claim_C6_initial_influence_unscaled :
    (∀ (n d b : ℕ) (P : LoopParams n) (s : RecState n d),
      (_train_init P s b).influences = fun j m =>
        P.calc_influence (_train_init P s b).map_radius j m) ∧
    (_train_init pC6 sC6 1).learning_rate = 1 / 2 ∧
    (_train_init pC6 sC6 1).influences 0 0 ≠
      pC6.calc_influence (_train_init pC6 sC6 1).map_radius 0 0 *
        (_train_init pC6 sC6 1).learning_rate := by
  refine ⟨fun n d b P s => rfl, rfl, ?_⟩
  show (1 : ℝ) ≠ 1 * (1 / 2)
  norm_num

/-- C5 (amended): in `Recursive._train_loop` the checkpoint tests use the
pre-increment global index — the index of the example just processed — and
only afterwards is the index incremented: after one iteration `idx` has
grown by one, the radius was recomputed (at the stepped `nb_step`) exactly
when the pre-increment `idx` was in the neighborhood checkpoint set, and the
learning rate was recomputed exactly when the pre-increment `idx` was in the
learning-rate checkpoint set. -/
theorem claim_C5_checkpoints_use_pre_increment_index {n d b : ℕ} [NeZero n]
    (P : LoopParams n) (ls : LoopState n d b) (x : Fin b → Fin d → ℝ) (ct : ℝ) :
    (_train_step P ls x ct).idx = ls.idx + 1 ∧
    (_train_step P ls x ct).nb_step =
      (if ls.idx ∈ P.nb_update_counter then ls.nb_step + 1 else ls.nb_step) ∧
    (_train_step P ls x ct).map_radius =
      (if ls.idx ∈ P.nb_update_counter then
        P.nbfunc P.sigma (ls.nb_step + 1) P.nb_update_counter.length else ls.map_radius) ∧
    (_train_step P ls x ct).lr_step =
      (if ls.idx ∈ P.lr_update_counter then ls.lr_step + 1 else ls.lr_step) ∧
    (_train_step P ls x ct).learning_rate =
      (if ls.idx ∈ P.lr_update_counter then
        P.lrfunc P.learning_rate0 (ls.lr_step + 1) P.lr_update_counter.length
      else ls.learning_rate) := by
  refine ⟨rfl, rfl, ?_, rfl, ?_⟩
  · by_cases h : ls.idx ∈ P.nb_update_counter
    · show (if ls.idx ∈ P.nb_update_counter then
          P.nbfunc P.sigma (if ls.idx ∈ P.nb_update_counter then ls.nb_step + 1 else ls.nb_step)
            P.nb_update_counter.length
        else ls.map_radius) = _
      rw [if_pos h, if_pos h, if_pos h]
    · show (if ls.idx ∈ P.nb_update_counter then
          P.nbfunc P.sigma (if ls.idx ∈ P.nb_update_counter then ls.nb_step + 1 else ls.nb_step)
            P.nb_update_counter.length
        else ls.map_radius) = _
      rw [if_neg h, if_neg h]
  · by_cases h : ls.idx ∈ P.lr_update_counter
    · show (if ls.idx ∈ P.lr_update_counter then
          P.lrfunc P.learning_rate0 (if ls.idx ∈ P.lr_update_counter then ls.lr_step + 1 else ls.lr_step)
            P.lr_update_counter.length
        else ls.learning_rate) = _
      rw [if_pos h, if_pos h, if_pos h]
    · show (if ls.idx ∈ P.lr_update_counter then
          P.lrfunc P.learning_rate0 (if ls.idx ∈ P.lr_update_counter then ls.lr_step + 1 else ls.lr_step)
            P.lr_update_counter.length
        else ls.learning_rate) = _
      rw [if_neg h, if_neg h]

/-- Witness for the amended C5 at a concrete instance. -/
theorem claim_C5_checkpoints_use_pre_increment_index_witness :
    (_train_step pC5 lsC5 xC5 1).idx = lsC5.idx + 1 :=
  (claim_C5_checkpoints_use_pre_increment_index pC5 lsC5 xC5 1).1

/-- Counterexample to C5 as stated: at `pC5`/`lsC5` the pre-increment index
is 0 and the neighborhood checkpoint set is `[0]`, so the code recomputes
the radius (`nbfunc` here returns `sigma + step`, giving 2); had membership
of the post-increment index 1 governed the recompute, the cached radius 5
would have been kept. -/
theorem claim_C5_counterexample :
    ¬ ((_train_step pC5 lsC5 xC5 1).map_radius =
      (if lsC5.idx + 1 ∈ pC5.nb_update_counter then
        pC5.nbfunc pC5.sigma (lsC5.nb_step + 1) pC5.nb_update_counter.length
      else lsC5.map_radius)) := by
  have h1 : (_train_step pC5 lsC5 xC5 1).map_radius = 2 := by
    show (if lsC5.idx ∈ pC5.nb_update_counter then
        pC5.nbfunc pC5.sigma
          (if lsC5.idx ∈ pC5.nb_update_counter then lsC5.nb_step + 1 else lsC5.nb_step)
          pC5.nb_update_counter.length
      else lsC5.map_radius) = 2
    norm_num [pC5, lsC5]
  rw [h1]
  norm_num [pC5, lsC5]

/-- Unrolling one step of the training loop: running the loop over the first
`i + 1` (example, mask) pairs is one `_train_step` on top of running it over
the first `i`. -/
theorem train_run_take_succ {n d b : ℕ} [NeZero n] (P : LoopParams n) (ls : LoopState n d b)
    (pairs : List ((Fin b → Fin d → ℝ) × ℝ)) (i : ℕ) (h : i < pairs.length) :
    _train_run P ls (pairs.take (i + 1)) =
      _train_step P (_train_run P ls (pairs.take i)) pairs[i].1 pairs[i].2 := by
  unfold _train_run
  rw [List.take_succ, List.getElem?_eq_getElem h, Option.toList_some, List.foldl_append,
    List.foldl_cons, List.foldl_nil]

/-- C3: in each `Recursive._train_loop` iteration the activation produced by
`_example` is multiplied by that example's context-mask value before being
passed on as the recurrence state for the next example; in particular a mask
value of 0 at index `i` makes the state entering example `i + 1` exactly
zero, while example `i`'s own activation and weight update do not depend on
its mask value (the post-step instance state is the same for every mask
value). -/
theorem claim_C3_context_mask_cuts_recurrence {n d b : ℕ} [NeZero n] (P : LoopParams n)
    (ls : LoopState n d b) (pairs : List ((Fin b → Fin d → ℝ) × ℝ)) (i : ℕ)
    (h : i < pairs.length) :
    ((_train_run P ls (pairs.take (i + 1))).prev_activation = fun a j =>
      pairs[i].2 *
        (_example (_train_run P ls (pairs.take i)).st pairs[i].1
          (_train_run P ls (pairs.take i)).influences
          (_train_run P ls (pairs.take i)).prev_activation).2 a j) ∧
    (pairs[i].2 = 0 →
      (_train_run P ls (pairs.take (i + 1))).prev_activation = fun _ _ => 0) ∧
    (∀ ct : ℝ, (_train_step P (_train_run P ls (pairs.take i)) pairs[i].1 ct).st =
      (_train_run P ls (pairs.take (i + 1))).st) := by
  have key := train_run_take_succ P ls pairs i h
  refine ⟨?_, ?_, ?_⟩
  · rw [key]
    rfl
  · intro h0
    rw [key]
    funext a j
    show pairs[i].2 * _ = 0
    rw [h0, zero_mul]
  · intro ct
    rw [key]
    rfl

/-- Witness for C3 at a concrete instance whose single (example, mask) pair
carries mask value 0: the recurrence state after it is exactly zero. -/
theorem claim_C3_context_mask_cuts_recurrence_witness :
    (_train_run pC3 lsC3 (pairsC3.take 1)).prev_activation = fun _ _ => 0 :=
  (claim_C3_context_mask_cuts_recurrence pC3 lsC3 pairsC3 0 (by decide)).2.1 rfl

/-- The prediction loop emits exactly one activation row per remaining
input row. -/
theorem predict_loop_length {n d : ℕ} (s : RecState n d) (prev : Fin 1 → Fin n → ℝ)
    (L : List (Fin d → ℝ)) : (_predict_loop s prev L).length = L.length := by
  induction L generalizing prev with
  | nil => rfl
  | cons x rest ih => simp [_predict_loop, ih]

/-- Each output row of the prediction loop after the first is the
`_get_bmus` activation of the corresponding input, seeded with the previous
output row as recurrence state. -/
theorem predict_loop_succ {n d : ℕ} (s : RecState n d) (prev : Fin 1 → Fin n → ℝ)
    (L : List (Fin d → ℝ)) (i : ℕ) (h : i + 1 < L.length) :
    (_predict_loop s prev L).getD (i + 1) (fun _ => 0) =
      (_get_bmus s (fun _ : Fin 1 => L.getD (i + 1) (fun _ => 0))
        (fun _ : Fin 1 => (_predict_loop s prev L).getD i (fun _ => 0))).1 0 := by
  induction L generalizing prev i with
  | nil => simp at h
  | cons x rest ih =>
    cases i with
    | zero =>
      cases rest with
      | nil => simp at h
      | cons y r2 =>
        have e2 : (_predict_loop s prev (x :: y :: r2)).getD 0 (fun _ => 0) =
            (_get_bmus s (fun _ => x) prev).1 0 := rfl
        have hfun : (fun _ : Fin 1 => (_get_bmus s (fun _ => x) prev).1 0) =
            (_get_bmus s (fun _ => x) prev).1 := by
          funext a
          rw [Fin.eq_zero a]
        simp only [e2, hfun]
        rfl
    | succ k =>
      have hk : k + 1 < rest.length := by simpa using h
      exact ih ((_get_bmus s (fun _ => x) prev).1) k hk

/-- C10: for a 2-D input with at least two rows, the first row returned by
`Recursive._predict_base` is the raw squared Euclidean distance of the first
input to each weight vector — no context term, no exponential — while every
subsequent row is the exponential activation
`exp(-(alpha * distance_x + beta * distance_y))`, with the previous output
row feeding the context term. -/
theorem claim_C10_predict_first_row_raw_distance {n d : ℕ} (s : RecState n d)
    (X : List (Fin d → ℝ)) (h : 2 ≤ X.length) :
    (_predict_base s X).length = X.length ∧
    (_predict_base s X).getD 0 (fun _ => 0) =
      (fun j => ∑ c, (X.getD 0 (fun _ => 0) c - s.weights j c) ^ 2) ∧
    ∀ i : ℕ, i + 1 < X.length →
      (_predict_base s X).getD (i + 1) (fun _ => 0) = fun j =>
        Real.exp (-(s.alpha * (∑ c, (X.getD (i + 1) (fun _ => 0) c - s.weights j c) ^ 2)
          + s.beta * (∑ m, ((_predict_base s X).getD i (fun _ => 0) m
            - s.context_weights j m) ^ 2))) := by
  obtain ⟨x0, rest, rfl⟩ : ∃ x0 rest, X = x0 :: rest := by
    cases X with
    | nil => simp at h
    | cons a l => exact ⟨a, l, rfl⟩
  refine ⟨?_, rfl, ?_⟩
  · simp [_predict_base, predict_loop_length]
  · intro i hi
    cases i with
    | zero =>
      cases rest with
      | nil => simp at hi
      | cons y r2 => rfl
    | succ k =>
      have hk : k + 1 < rest.length := by simpa using hi
      exact predict_loop_succ s (fun _ j => ∑ c, (x0 c - s.weights j c) ^ 2) rest k hk

/-- Witness for C10 at a concrete two-row input. -/
theorem claim_C10_predict_first_row_raw_distance_witness :
    (_predict_base sW10 xsW10).length = xsW10.length :=
  (claim_C10_predict_first_row_raw_distance sW10 xsW10 (by decide)).1

/-- Indexing a mapped range: the element at a valid position `i` of
`(range k).map f` is `f i`. -/
theorem getD_range_map {α : Type} (f : ℕ → α) (k i : ℕ) (d : α) (h : i < k) :
    ((List.range k).map f).getD i d = f i := by
  rw [List.getD_eq_getElem _ _ (by simpa using h)]
  simp

/-- The sequence length is at most `batch_size * ceil_div length batch_size`. -/
theorem length_le_mul_ceil_div (N bs : ℕ) (hbs : 0 < bs) : N ≤ bs * ceil_div N bs := by
  unfold ceil_div
  have h1 := Nat.div_add_mod (N + bs - 1) bs
  have h2 := Nat.mod_lt (N + bs - 1) hbs
  generalize bs * ((N + bs - 1) / bs) = t at h1 ⊢
  omega

/-- Entry `(r, c)` of the resized array is row `(r * cols + c) % len(X)` of
the input. -/
theorem np_resize_entry {V : Type} [Inhabited V] (X : List V) (rows cols r c : ℕ)
    (hr : r < rows) (hc : c < cols) :
    ((np_resize X rows cols).getD r []).getD c default =
      X.getD ((r * cols + c) % X.length) default := by
  unfold np_resize
  rw [getD_range_map _ rows r [] hr, getD_range_map _ cols c default hc]

/-- Row `r` taken across all batches, in batch order, is the mapped range of
wrapped input indices `r * num_batches + b`. -/
theorem create_batches_row {V : Type} [Inhabited V] (X : List V) (bs r : ℕ) (hr : r < bs) :
    ((_create_batches X bs).map fun batch => batch.getD r default) =
      (List.range (ceil_div X.length bs)).map fun b =>
        X.getD ((r * ceil_div X.length bs + b) % X.length) default := by
  unfold _create_batches transpose_batches
  rw [List.map_map]
  apply List.map_congr_left
  intro b hb
  rw [List.mem_range] at hb
  show ((List.range bs).map fun r2 =>
      ((np_resize X bs (ceil_div X.length bs)).getD r2 []).getD b default).getD r default = _
  rw [getD_range_map _ bs r default hr]
  exact np_resize_entry X bs (ceil_div X.length bs) r b hr hb

/-- Concatenating the row-blocks of a rectangular range-indexed family is
the mapped range of the flattened index. -/
theorem range_map_flatten {α : Type} (g : ℕ → α) (m k : ℕ) :
    ((List.range m).map fun r => (List.range k).map fun c => g (r * k + c)).flatten =
      (List.range (m * k)).map g := by
  induction m with
  | zero => simp
  | succ m ih =>
    rw [List.range_succ, List.map_append, List.flatten_append, ih, Nat.succ_mul,
      List.range_add, List.map_append, List.map_map]
    simp [Function.comp_def]

/-- The batch-major flattening of `_create_batches X bs` is the input
repeated cyclically out to `bs * ceil_div |X| bs` elements. -/
theorem flatten_create_batches {V : Type} [Inhabited V] (X : List V) (bs : ℕ) :
    flatten_batch_major (_create_batches X bs) bs =
      (List.range (bs * ceil_div X.length bs)).map fun p =>
        X.getD (p % X.length) default := by
  unfold flatten_batch_major
  rw [← range_map_flatten (fun p => X.getD (p % X.length) default) bs (ceil_div X.length bs)]
  congr 1
  apply List.map_congr_left
  intro r hr
  rw [List.mem_range] at hr
  exact create_batches_row X bs r hr

/-- C4: when `batch_size` does not evenly divide the sequence length `N`,
`Recursive._create_batches` pads the tail of the batched data — every flat
position `N + k` of the batch-major traversal — with wrap-around repetition
of the input from its beginning (`X[0], X[1], ...` in order), not with
zeros. -/
theorem claim_C4_wraparound_padding {V : Type} [Inhabited V] (X : List V) (bs : ℕ)
    (hN : 0 < X.length) (hbs : 0 < bs) (hndvd : ¬ bs ∣ X.length) (k : ℕ)
    (hk : X.length + k < bs * ceil_div X.length bs) :
    (flatten_batch_major (_create_batches X bs) bs).getD (X.length + k) default =
      X.getD (k % X.length) default := by
  rw [flatten_create_batches X bs, getD_range_map _ _ _ default hk, Nat.add_mod_left]

/-- Witness for C4: `X = [10, 20, 30]`, `batch_size = 2` (which does not
divide 3).  The single padding slot (flat position 3) holds `X[0] = 10`. -/
theorem claim_C4_wraparound_padding_witness :
    (flatten_batch_major (_create_batches ([10, 20, 30] : List ℕ) 2) 2).getD
        (([10, 20, 30] : List ℕ).length + 0) default =
      ([10, 20, 30] : List ℕ).getD (0 % ([10, 20, 30] : List ℕ).length) default :=
  claim_C4_wraparound_padding ([10, 20, 30] : List ℕ) 2 (by decide) (by decide) (by decide) 0
    (by decide)

/-- C7: flattening the output of `Recursive._create_batches` in batch-major,
temporal-order-preserving fashion reproduces the input exactly in its first
`N` elements (padding only beyond index `N - 1`), and each within-batch row
traversed across batches is — whenever it lies inside the input — a
contiguous, temporally ordered sub-sequence of the input. -/
theorem claim_C7_batch_major_roundtrip {V : Type} [Inhabited V] (X : List V) (bs : ℕ)
    (hN : 0 < X.length) (hbs : 0 < bs) :
    (flatten_batch_major (_create_batches X bs) bs).take X.length = X ∧
    ∀ r : ℕ, r < bs → (r + 1) * ceil_div X.length bs ≤ X.length →
      ((_create_batches X bs).map fun batch => batch.getD r default) =
        (X.drop (r * ceil_div X.length bs)).take (ceil_div X.length bs) := by
  constructor
  · rw [flatten_create_batches X bs, ← List.map_take, List.take_range,
      Nat.min_eq_left (length_le_mul_ceil_div X.length bs hbs)]
    apply List.ext_getElem
    · simp
    · intro i h1 h2
      simp only [List.getElem_map, List.getElem_range]
      rw [Nat.mod_eq_of_lt h2, List.getD_eq_getElem _ _ h2]
  · intro r hr hbound
    rw [Nat.succ_mul] at hbound
    rw [create_batches_row X bs r hr]
    apply List.ext_getElem
    · simp only [List.length_map, List.length_range, List.length_take, List.length_drop]
      rw [Nat.min_eq_left (by omega)]
    · intro i h1 h2
      have hi : i < ceil_div X.length bs := by simpa using h1
      have hin : r * ceil_div X.length bs + i < X.length := by omega
      simp only [List.getElem_map, List.getElem_range, List.getElem_take, List.getElem_drop]
      rw [Nat.mod_eq_of_lt hin, List.getD_eq_getElem _ _ hin]

/-- Witness for C7: `X = [5, 6, 7]`, `batch_size = 2`; taking the first 3
elements of the batch-major flattening gives back `X`. -/
theorem claim_C7_batch_major_roundtrip_witness :
    (flatten_batch_major (_create_batches ([5, 6, 7] : List ℕ) 2) 2).take
        ([5, 6, 7] : List ℕ).length = [5, 6, 7] :=
  (claim_C7_batch_major_roundtrip ([5, 6, 7] : List ℕ) 2 (by decide) (by decide)).1

/-- The argsort of a row is sorted by the values it selects. -/
theorem argsort_row_sorted (a : List ℚ) :
    List.Sorted (fun i j : ℕ => a.getD i 0 ≤ a.getD j 0) (argsort_row a) := by
  haveI : IsTotal ℕ (fun i j : ℕ => a.getD i 0 ≤ a.getD j 0) := ⟨fun i j => le_total _ _⟩
  haveI : IsTrans ℕ (fun i j : ℕ => a.getD i 0 ≤ a.getD j 0) :=
    ⟨fun i j k h1 h2 => le_trans h1 h2⟩
  exact List.sorted_insertionSort _ _

/-- The argsort of a row is a permutation of all row indices. -/
theorem argsort_row_perm (a : List ℚ) : (argsort_row a).Perm (List.range a.length) :=
  List.perm_insertionSort _ _

/-- The head of a row's argsort is an index of a minimal value. -/
theorem argsort_row_head_min (a : List ℚ) (ha : a ≠ []) :
    ∃ m, (argsort_row a).head? = some m ∧ m < a.length ∧
      ∀ j, j < a.length → a.getD m 0 ≤ a.getD j 0 := by
  have hs := argsort_row_sorted a
  have hp := argsort_row_perm a
  have hlen : (argsort_row a).length = a.length := by
    rw [hp.length_eq, List.length_range]
  have hne : argsort_row a ≠ [] := by
    intro hnil
    rw [hnil] at hlen
    exact ha (List.length_eq_zero.mp hlen.symm)
  obtain ⟨m, rest, hcons⟩ := List.exists_cons_of_ne_nil hne
  refine ⟨m, by rw [hcons]; rfl, ?_, ?_⟩
  · have hm : m ∈ argsort_row a := by
      rw [hcons]
      exact List.mem_cons_self _ _
    exact List.mem_range.mp (hp.mem_iff.mp hm)
  · intro j hj
    have hjmem : j ∈ argsort_row a := hp.mem_iff.mpr (List.mem_range.mpr hj)
    rw [hcons] at hjmem hs
    rcases List.mem_cons.mp hjmem with hjm | hjr
    · exact le_of_eq (congrArg (fun t => a.getD t 0) hjm.symm)
    · exact List.rel_of_sorted_cons hs j hjr

/-- On a strictly increasing row the argsort is the identity ranking. -/
theorem argsort_row_strict_increasing (a : List ℚ) (hmono : List.Pairwise (· < ·) a) :
    argsort_row a = List.range a.length := by
  apply List.Sorted.insertionSort_eq
  show List.Pairwise _ (List.range a.length)
  rw [List.pairwise_iff_getElem]
  intro i j hi hj hij
  simp only [List.getElem_range]
  have hi' : i < a.length := by simpa using hi
  have hj' : j < a.length := by simpa using hj
  rw [List.getD_eq_getElem a 0 hi', List.getD_eq_getElem a 0 hj']
  rw [List.pairwise_iff_getElem] at hmono
  exact le_of_lt (hmono i j hi' hj' hij)

/-- C8: `Ng._get_bmu` returns the ascending argsort of the activations along
axis 1; under the `'argmax'` configuration the activations are negated
before sorting; in both configurations the best-matching neuron (smallest
activation for `'argmin'`, largest for `'argmax'`) appears at rank 0; and
for a single input with strictly increasing activations under the
minimization configuration the result is `[0, 1, ..., k-1]`. -/
theorem claim_C8_ng_argsort_ranking :
    (∀ acts : List (List ℚ), _get_bmu ngArgfunc acts = acts.map argsort_row) ∧
    (∀ acts : List (List ℚ), _get_bmu argmaxName acts =
      acts.map fun row => argsort_row (row.map fun v => -v)) ∧
    (∀ a : List ℚ, List.Pairwise (· < ·) a →
      _get_bmu ngArgfunc [a] = [List.range a.length]) ∧
    (∀ a : List ℚ, a ≠ [] → ∃ m, ((_get_bmu ngArgfunc [a]).getD 0 []).head? = some m ∧
      m < a.length ∧ ∀ j, j < a.length → a.getD m 0 ≤ a.getD j 0) ∧
    (∀ a : List ℚ, a ≠ [] → ∃ m, ((_get_bmu argmaxName [a]).getD 0 []).head? = some m ∧
      m < a.length ∧ ∀ j, j < a.length → a.getD j 0 ≤ a.getD m 0) := by
  have h1 : ∀ acts : List (List ℚ), _get_bmu ngArgfunc acts = acts.map argsort_row := by
    intro acts
    show (if ngArgfunc = argmaxName then acts.map (fun row => row.map fun v => -v)
      else acts).map argsort_row = acts.map argsort_row
    rw [if_neg (by decide)]
  have h2 : ∀ acts : List (List ℚ), _get_bmu argmaxName acts =
      acts.map fun row => argsort_row (row.map fun v => -v) := by
    intro acts
    show (if argmaxName = argmaxName then acts.map (fun row => row.map fun v => -v)
      else acts).map argsort_row = acts.map fun row => argsort_row (row.map fun v => -v)
    rw [if_pos rfl, List.map_map]
    rfl
  refine ⟨h1, h2, ?_, ?_, ?_⟩
  · intro a hmono
    rw [h1]
    show [argsort_row a] = _
    rw [argsort_row_strict_increasing a hmono]
  · intro a ha
    have hrow : (_get_bmu ngArgfunc [a]).getD 0 [] = argsort_row a := by
      rw [h1]
      rfl
    rw [hrow]
    exact argsort_row_head_min a ha
  · intro a ha
    have hrow : (_get_bmu argmaxName [a]).getD 0 [] = argsort_row (a.map fun v => -v) := by
      rw [h2]
      rfl
    rw [hrow]
    have hane : (a.map fun v => -v) ≠ [] := by simpa using ha
    obtain ⟨m, hh, hm, hmin⟩ := argsort_row_head_min (a.map fun v => -v) hane
    rw [List.length_map] at hm
    refine ⟨m, hh, hm, ?_⟩
    intro j hj
    have hneg := hmin j (by rw [List.length_map]; exact hj)
    rw [List.getD_eq_getElem _ _ (by rw [List.length_map]; exact hm),
      List.getD_eq_getElem _ _ (by rw [List.length_map]; exact hj),
      List.getElem_map, List.getElem_map] at hneg
    rw [List.getD_eq_getElem a 0 hm, List.getD_eq_getElem a 0 hj]
    exact le_of_neg_le_neg hneg

/-- Witness for C8: strictly increasing activations `[1, 2, 3]` under the
`'argmin'` configuration rank as `[0, 1, 2]`. -/
theorem claim_C8_ng_argsort_ranking_witness :
    _get_bmu ngArgfunc [[(1 : ℚ), 2, 3]] = [List.range 3] :=
  claim_C8_ng_argsort_ranking.2.2.1 [(1 : ℚ), 2, 3] (by decide)
